import Mathlib

/-!
Shallow embedding of the mdbook-epub asset discovery and content assembly
pipeline (src/generator.rs and src/resources.rs), together with theorems
settling the specification claims about it.

Strings are modelled as lists of characters or as Lean strings, paths as
lists of path components, and the filesystem as an explicit record of
functions (canonicalize, is_file, read).  External collaborators (the
markdown parser, the handlebars renderer, the epub builder) are modelled
as parameters or as event lists, exactly at the interface the source uses.
-/

namespace MdBookEpub

/-- Decidable equality of fallible results, for evaluating concrete
runs. -/
instance exceptDecEq {ε α : Type} [DecidableEq ε] [DecidableEq α] :
    DecidableEq (Except ε α) := fun a b =>
  match a, b with
  | .error e1, .error e2 =>
      match decEq e1 e2 with
      | isTrue h => isTrue (by rw [h])
      | isFalse h => isFalse (fun hc => h (by injection hc))
  | .ok x, .ok y =>
      match decEq x y with
      | isTrue h => isTrue (by rw [h])
      | isFalse h => isFalse (fun hc => h (by injection hc))
  | .error _, .ok _ => isFalse (fun hc => Except.noConfusion hc)
  | .ok _, .error _ => isFalse (fun hc => Except.noConfusion hc)

/-! ## The HTML fixer (generator.rs, fix_html / fix_img)

The source applies the regular expression pattern
img-tag, one-or-more whitespace, zero-or-more non-gt characters, slash, gt
and replaces every non-overlapping leftmost match m by p-open m p-close.
-/

/-- The whitespace class of the regex escape used in the image pattern
(Unicode White_Space, as matched by the regex crate). -/
def rsIsSpace (c : Char) : Bool :=
  c = ' ' || c = '\t' || c = '\n' || c = Char.ofNat 11 || c = Char.ofNat 12 ||
  c = '\r' || c = Char.ofNat 0x85 || c = Char.ofNat 0xA0 || c = Char.ofNat 0x1680 ||
  (0x2000 ≤ c.toNat && c.toNat ≤ 0x200A) || c = Char.ofNat 0x2028 ||
  c = Char.ofNat 0x2029 || c = Char.ofNat 0x202F || c = Char.ofNat 0x205F ||
  c = Char.ofNat 0x3000

/-- Scan for the end of an image-pattern match: find the first closing
angle bracket and require that it is immediately preceded by a slash
(the greedy non-gt class can only stop at the first closing bracket, and
the trailing literal slash-gt must sit exactly there).  `prev` is the
character before the current head, `n` the offset of the head from the
start of the candidate match; returns the total match length. -/
def findSlashClose : Char → List Char → Nat → Option Nat
  | prev, '>' :: _, n => if prev = '/' then some (n + 1) else none
  | _, c :: rest, n => findSlashClose c rest (n + 1)
  | _, [], _ => none

/-- Length of the image-pattern match starting at the head of the input,
if any: literal lt-i-m-g, one whitespace character, then (anything not
containing a closing bracket) up to a slash immediately followed by the
first closing bracket. -/
def matchImgLen : List Char → Option Nat
  | '<' :: 'i' :: 'm' :: 'g' :: c :: rest =>
      if rsIsSpace c then findSlashClose c rest 5 else none
  | _ => none

def pOpen : List Char := '<' :: 'p' :: '>' :: []

def pClose : List Char := '<' :: '/' :: 'p' :: '>' :: []

/-- replace_all for the image pattern: scan left to right, wrap each
leftmost match in a paragraph element and continue after it.  Fuel-indexed
(each step consumes at least one input character, so fuel equal to the
input length is exact). -/
def fixImgGo : Nat → List Char → List Char
  | 0, s => s
  | _ + 1, [] => []
  | fuel + 1, c :: rest =>
      match matchImgLen (c :: rest) with
      | some n => pOpen ++ (c :: rest).take n ++ pClose ++ fixImgGo fuel ((c :: rest).drop n)
      | none => c :: fixImgGo fuel rest

/-- Generator::fix_img. -/
def fix_img (s : List Char) : List Char := fixImgGo s.length s

/-- Generator::fix_html (the only fix applied is the image fix). -/
def fix_html (s : List Char) : List Char := fix_img s

/-- No suffix of the input starts an image-pattern match, i.e. replace_all
finds nothing to replace. -/
def noImgMatch : List Char → Bool
  | [] => true
  | c :: rest => (matchImgLen (c :: rest)).isNone && noImgMatch rest

/-- A concrete self-closing image element. -/
def imgEx : List Char := "<img src=\"a\"/>".toList

/-! ## Raw-HTML link extraction (resources.rs, assets_in_markdown)

The source pattern is
  group1( lt, a-or-img, space, lazy non-gt run, src-or-href, equals, quote )
  group2( lazy non-quote run, at least one ) quote
and only the first match of a fragment is consulted (captures, not
captures_iter), taking capture group 2.
-/

/-- The first list is a leading run of the second. -/
def startsList : List Char → List Char → Bool
  | [], _ => true
  | _ :: _, [] => false
  | p :: ps, c :: cs => p = c && startsList ps cs

/-- The characters before the first double quote, provided a double quote
occurs at all. -/
def upToQuote : List Char → Option (List Char)
  | [] => none
  | '"' :: _ => some []
  | c :: rest => (upToQuote rest).map (c :: ·)

/-- Capture of group 2: a non-empty lazy run of non-quote characters that
must be terminated by a closing double quote, hence exactly the characters
up to the first double quote, required non-empty. -/
def captureVal (s : List Char) : Option (List Char) :=
  match upToQuote s with
  | none => none
  | some [] => none
  | some (c :: v) => some (c :: v)

def srcPat : List Char := "src=\"".toList

def hrefPat : List Char := "href=\"".toList

/-- Backtracking search after the tag opening: at each offset (shortest
first, mirroring the lazy non-gt class) try the literal src-equals-quote,
then href-equals-quote, then the value capture; on failure advance one
character, never crossing a closing angle bracket. -/
def matchAttr : List Char → Option (List Char)
  | [] => none
  | c :: rest =>
      match (if startsList srcPat (c :: rest) then captureVal ((c :: rest).drop 5) else none) with
      | some v => some v
      | none =>
          match (if startsList hrefPat (c :: rest) then captureVal ((c :: rest).drop 6) else none) with
          | some v => some v
          | none => if c = '>' then none else matchAttr rest

def aPat : List Char := "<a ".toList

def imgPat : List Char := "<img ".toList

/-- Leftmost match of the link pattern over one raw html fragment,
returning capture group 2 (the attribute value) of the first full match. -/
def firstHtmlLink : List Char → Option (List Char)
  | [] => none
  | c :: rest =>
      match (if startsList aPat (c :: rest) then matchAttr ((c :: rest).drop 3) else none) with
      | some v => some v
      | none =>
          match (if startsList imgPat (c :: rest) then matchAttr ((c :: rest).drop 5) else none) with
          | some v => some v
          | none => firstHtmlLink rest

/-- The pulldown-cmark events the extraction loop distinguishes.  Image
start events and raw html events are acted on; link start events, text and
everything else fall into the catch-all arm of the source match. -/
inductive MdEvent where
  | startImage (dest : String)
  | html (content : String)
  | startLink (dest : String)
  | text (s : String)
  | other
deriving DecidableEq

/-- The contribution of one event to the found list. -/
def linkOfEvent : MdEvent → Option String
  | .startImage dest => some dest
  | .html content =>
      match firstHtmlLink content.toList with
      | some v => some (String.mk v)
      | none => none
  | _ => none

/-- The first loop of assets_in_markdown: for every image start event push
its destination verbatim; for every raw html event push the first
attribute match of the link pattern, if any; ignore every other event. -/
def extractLinks : List MdEvent → List String
  | [] => []
  | .startImage dest :: rest => dest :: extractLinks rest
  | .html content :: rest =>
      match firstHtmlLink content.toList with
      | some v => String.mk v :: extractLinks rest
      | none => extractLinks rest
  | _ :: rest => extractLinks rest

/-- The pattern list occurs as a contiguous run somewhere in the input. -/
def hasSub : List Char → List Char → Bool
  | [], pat => startsList pat []
  | c :: rest, pat => startsList pat (c :: rest) || hasSub rest pat

/-! ## Path resolution and asset collection (resources.rs) -/

/-- str::split on the slash character over character lists: the segments
between slashes, empty segments kept (an input without slashes yields one
segment, the empty input one empty segment). -/
def splitSlashChars : List Char → List (List Char)
  | [] => [[]]
  | '/' :: rest => [] :: splitSlashChars rest
  | c :: rest =>
      match splitSlashChars rest with
      | [] => [[c]]
      | seg :: segs => (c :: seg) :: segs

/-- str::split on the slash character, as the source applies it to links
and chapter paths. -/
def splitSlash (s : String) : List String :=
  (splitSlashChars s.toList).map String.mk

/-- The filesystem and path-inspection interface the source consumes:
canonicalization (resolving dots and symlinks, requiring existence), the
regular-file test, file reading, and the mime-guess of the external crate
(from a path, defaulting to the octet-stream type). -/
structure FS where
  canonicalize : List String → Option (List String)
  isFile : List String → Bool
  readFile : List String → Option (List Nat)
  mimeOf : List String → String

/-- The body of the second loop of assets_in_markdown: push each
slash-separated segment of the link onto the chapter directory,
canonicalize, and require a regular file. -/
def resolveLink (fs : FS) (parentDir : List String) (link : String) :
    Except String (List String) :=
  let filename := parentDir ++ splitSlash link
  match fs.canonicalize filename with
  | none => .error ("Unable to fetch the canonical path for " ++
      String.intercalate "/" filename)
  | some canon =>
      if fs.isFile canon then .ok canon
      else .error ("Asset was not a file, " ++ String.intercalate "/" canon)

/-- The second loop of assets_in_markdown: resolve every found link in
order, failing on the first unresolvable one. -/
def resolveLinks (fs : FS) (parentDir : List String) :
    List String → Except String (List (List String))
  | [] => .ok []
  | link :: rest =>
      match resolveLink fs parentDir link with
      | .error e => .error e
      | .ok canon =>
          match resolveLinks fs parentDir rest with
          | .error e => .error e
          | .ok canons => .ok (canon :: canons)

/-- resources.rs assets_in_markdown: extract the links of the parsed event
stream of one chapter, then resolve each against the chapter directory. -/
def assets_in_markdown (fs : FS) (evts : List MdEvent) (parentDir : List String) :
    Except String (List (List String)) :=
  resolveLinks fs parentDir (extractLinks evts)

/-- resources.rs Asset. -/
structure Asset where
  location_on_disk : List String
  filename : List String
  mimetype : String
deriving DecidableEq

/-- Asset::new: the location is the absolute resolved path, the mimetype
is guessed from that location. -/
def Asset.new (fs : FS) (filename absoluteLocation : List String) : Asset :=
  { location_on_disk := absoluteLocation
    filename := filename
    mimetype := fs.mimeOf absoluteLocation }

/-- Path::strip_prefix on component lists. -/
def stripRoot : List String → List String → Option (List String)
  | [], l => some l
  | _ :: _, [] => none
  | p :: ps, x :: xs => if p = x then stripRoot ps xs else none

/-- The chapter directory: source root joined with the slash-separated
segments of the chapter path, with the final segment popped. -/
def chapterDir (srcDir : List String) (path : String) : List String :=
  (srcDir ++ splitSlash path).dropLast

/-- One asset record of the find loop; the unwrap of a failed strip_prefix
is a panic in the source, modelled as an error. -/
def mkAsset (fs : FS) (srcDir full : List String) : Except String Asset :=
  match stripRoot srcDir full with
  | some rel => .ok (Asset.new fs rel full)
  | none => .error "called unwrap on a failed strip of the source root"

/-- Turn the resolved paths of one chapter into asset records, in order. -/
def mapAssets (fs : FS) (srcDir : List String) :
    List (List String) → Except String (List Asset)
  | [] => .ok []
  | full :: rest =>
      match mkAsset fs srcDir full with
      | .error e => .error e
      | .ok a =>
          match mapAssets fs srcDir rest with
          | .error e => .error e
          | .ok more => .ok (a :: more)

/-- The per-chapter step of find. -/
def chapterAssets (fs : FS) (srcDir : List String) (path : String)
    (events : List MdEvent) : Except String (List Asset) :=
  match assets_in_markdown fs events (chapterDir srcDir path) with
  | .error e => .error e
  | .ok found => mapAssets fs srcDir found

/-- One node of the chapter tree as the book iteration yields it.  A
chapter carries its display name, its source path, its raw markdown
content, the event stream the external markdown parser produces for that
content, its optional section number, and its ordered sub items. -/
inductive BookItem where
  | chapter (name : String) (path : String) (content : String)
      (events : List MdEvent) (number : Option (List Nat))
      (subItems : List BookItem)
  | separator

/-- The book configuration fields the source reads. -/
structure BookConfig where
  title : Option String
  description : Option String
  authors : List String
  src : List String

/-- The render context: the book root directory, the book configuration,
and the sequence of nodes that the depth-first iteration of the chapter
tree yields (each yielded chapter still carrying its own sub items, as in
the source). -/
structure RenderContext where
  root : List String
  config : BookConfig
  book : List BookItem

/-- Path and event stream of every chapter of the iteration sequence. -/
def chapterSeq : List BookItem → List (String × List MdEvent)
  | [] => []
  | .chapter _ path _ events _ _ :: rest => (path, events) :: chapterSeq rest
  | .separator :: rest => chapterSeq rest

/-- The number of links extracted over all chapters. -/
def totalLinks : List BookItem → Nat
  | [] => 0
  | .chapter _ _ _ events _ _ :: rest => (extractLinks events).length + totalLinks rest
  | .separator :: rest => totalLinks rest

/-- The chapter loop of resources.rs find. -/
def findGo (fs : FS) (srcDir : List String) : List BookItem → Except String (List Asset)
  | [] => .ok []
  | .separator :: rest => findGo fs srcDir rest
  | .chapter _ path _ events _ _ :: rest =>
      match chapterAssets fs srcDir path events with
      | .error e => .error e
      | .ok here =>
          match findGo fs srcDir rest with
          | .error e => .error e
          | .ok more => .ok (here ++ more)

/-- resources.rs find: canonicalize the source directory, then walk every
chapter of the iteration sequence. -/
def find (fs : FS) (ctx : RenderContext) : Except String (List Asset) :=
  match fs.canonicalize (ctx.root ++ ctx.config.src) with
  | none => .error "Unable to canonicalize the src directory"
  | some srcDir => findGo fs srcDir ctx.book

/-! ## The stylesheet builder (generator.rs, generate_stylesheet) -/

/-- The renderer configuration fields the source reads. -/
structure Config where
  use_default_css : Bool
  additional_css : List (List String)

/-- The loop of generate_stylesheet: append the full contents of every
additional stylesheet file, in configured order, to the accumulator,
failing on the first unreadable file. -/
def stylesheetGo (fs : FS) (acc : List Nat) :
    List (List String) → Except String (List Nat)
  | [] => .ok acc
  | p :: rest =>
      match fs.readFile p with
      | none => .error ("Unable to open " ++ String.intercalate "/" p)
      | some bytes => stylesheetGo fs (acc ++ bytes) rest

/-- generator.rs generate_stylesheet.  `defaultCss` stands for the bytes
of the DEFAULT_CSS constant of the crate root (a source file not under
inspection; its value is irrelevant to the claims). -/
def generate_stylesheet (fs : FS) (defaultCss : List Nat) (config : Config) :
    Except String (List Nat) :=
  stylesheetGo fs (if config.use_default_css then defaultCss else []) config.additional_css

/-! ## The package emitter (generator.rs, Generator::generate)

The epub builder is external; its calls are recorded in an operation
trace, and an oracle decides the outcome of each call.  Each phase takes
the trace accumulated so far and returns the extended trace together with
an optional error; the question-mark operator of the source becomes
short-circuiting sequencing. -/

/-- The operations the external epub builder receives. -/
inductive BOp where
  | metadata (key value : String)
  | addContent (path title : String) (level : Int) (children : List (String × String))
  | stylesheet (bytes : List Nat)
  | addResource (filename mimetype : String)
  | serialize
deriving DecidableEq

/-- Outcome oracle for builder calls: none is success. -/
def BOracle := BOp → Option String

/-- One builder call: the operation is recorded as attempted and the
oracle decides whether it succeeds. -/
def doOp (oracle : BOracle) (tr : List BOp) (op : BOp) : List BOp × Option String :=
  (tr ++ [op], oracle op)

/-- Short-circuiting sequencing: a failed step aborts, keeping the trace
accumulated so far. -/
def andThen (r : List BOp × Option String) (f : List BOp → List BOp × Option String) :
    List BOp × Option String :=
  match r with
  | (tr, some e) => (tr, some e)
  | (tr, none) => f tr

/-- Generator::populate_metadata: the generator field always, title and
description when present, the comma-joined author list when non-empty. -/
def populate_metadata (oracle : BOracle) (cfg : BookConfig) (tr : List BOp) :
    List BOp × Option String :=
  andThen (doOp oracle tr (.metadata "generator" "mdbook-epub")) fun tr1 =>
  andThen (match cfg.title with
           | some t => doOp oracle tr1 (.metadata "title" t)
           | none => (tr1, none)) fun tr2 =>
  andThen (match cfg.description with
           | some d => doOp oracle tr2 (.metadata "description" d)
           | none => (tr2, none)) fun tr3 =>
  match cfg.authors with
  | [] => (tr3, none)
  | a => doOp oracle tr3 (.metadata "author" (String.intercalate ", " a))

/-- The stem of the reversed final path component: everything after the
first dot of the reversed name, provided that remainder is non-empty (a
name whose only dot is the leading one has no extension). -/
def stemRev : List Char → Option (List Char)
  | [] => none
  | '.' :: rest => if rest.isEmpty then none else some rest
  | _ :: rest => stemRev rest

/-- with_extension html on the textual chapter path: replace the extension
of the final path component by html (appending when there is none). -/
def withExtHtml (path : String) : String :=
  let comps := splitSlash path
  match comps.getLast? with
  | none => path ++ ".html"
  | some name =>
      let stem := match stemRev name.toList.reverse with
                  | some r => r.reverse
                  | none => name.toList
      String.intercalate "/" (comps.dropLast ++ [String.mk (stem ++ ".html".toList)])

/-- The first pass over sub_items of add_chapter: one toc child per direct
sub chapter, pairing its html output path with its display name. -/
def tocChildren : List BookItem → List (String × String)
  | [] => []
  | .chapter name path _ _ _ _ :: rest => (withExtHtml path, name) :: tocChildren rest
  | .separator :: rest => tocChildren rest

/-- The nesting level of add_chapter: the component count of the section
number minus one (as a signed integer, as in the source), or zero for an
unnumbered chapter. -/
def chapterLevel (number : Option (List Nat)) : Int :=
  match number with
  | some n => (n.length : Int) - 1
  | none => 0

/-- The external dependencies of the generator: the filesystem, the
builder oracle, the markdown renderer (a pure function), the handlebars
template renderer (fallible), and the built-in default stylesheet. -/
structure GenDeps where
  fs : FS
  oracle : BOracle
  renderMarkdown : String → String
  hbsRender : String → Except String String
  defaultCss : List Nat

/-- Generator::add_chapter: render the markdown, fix the html, render the
page template, then hand the builder one content entry carrying the html
output path, the display title, the nesting level and the toc children. -/
def add_chapter (d : GenDeps) (tr : List BOp) (name path content : String)
    (number : Option (List Nat)) (subItems : List BookItem) :
    List BOp × Option String :=
  match d.hbsRender (String.mk (fix_html (d.renderMarkdown content).toList)) with
  | .error e => (tr, some e)
  | .ok _rendered =>
      doOp d.oracle tr
        (.addContent (withExtHtml path) name (chapterLevel number) (tocChildren subItems))

/-- Generator::generate_chapters: add every chapter of the iteration
sequence, in order, aborting on the first failure. -/
def generate_chapters (d : GenDeps) : List BookItem → List BOp → List BOp × Option String
  | [], tr => (tr, none)
  | .chapter name path content _ number subs :: rest, tr =>
      andThen (add_chapter d tr name path content number subs) fun tr1 =>
        generate_chapters d rest tr1
  | .separator :: rest, tr => generate_chapters d rest tr

/-- Generator::embed_stylesheets: build the stylesheet, then hand it to
the builder. -/
def embed_stylesheets (d : GenDeps) (config : Config) (tr : List BOp) :
    List BOp × Option String :=
  match generate_stylesheet d.fs d.defaultCss config with
  | .error _ => (tr, some "Unable to generate stylesheet")
  | .ok bytes => doOp d.oracle tr (.stylesheet bytes)

/-- Generator::load_asset: open the asset file, then add it as a resource
under its archive name (path separators normalized to slashes). -/
def load_asset (d : GenDeps) (tr : List BOp) (a : Asset) : List BOp × Option String :=
  match d.fs.readFile a.location_on_disk with
  | none => (tr, some "Unable to open asset")
  | some _ =>
      let filename := (String.intercalate "/" a.filename).replace "\\" "/"
      doOp d.oracle tr (.addResource filename a.mimetype)

/-- The asset loop of Generator::additional_assets. -/
def embed_assets (d : GenDeps) : List Asset → List BOp → List BOp × Option String
  | [], tr => (tr, none)
  | a :: rest, tr => andThen (load_asset d tr a) fun tr1 => embed_assets d rest tr1

/-- Generator::additional_assets: collect every asset of the book, then
embed each one in order. -/
def additional_assets (d : GenDeps) (ctx : RenderContext) (tr : List BOp) :
    List BOp × Option String :=
  match find d.fs ctx with
  | .error _ => (tr, some "Inspecting the book for additional assets failed")
  | .ok assets => embed_assets d assets tr

/-- The four assembly phases of Generator::generate, in order: metadata
population, chapter generation, stylesheet embedding, asset embedding. -/
def assemble (d : GenDeps) (ctx : RenderContext) (config : Config) (tr : List BOp) :
    List BOp × Option String :=
  andThen (populate_metadata d.oracle ctx.config tr) fun tr1 =>
  andThen (generate_chapters d ctx.book tr1) fun tr2 =>
  andThen (embed_stylesheets d config tr2) fun tr3 =>
  additional_assets d ctx tr3

/-- Generator::generate: assembly, then the final serialize call of the
builder against the output sink. -/
def generate (d : GenDeps) (ctx : RenderContext) (config : Config) :
    List BOp × Option String :=
  andThen (assemble d ctx config []) fun tr => doOp d.oracle tr .serialize

/-! ## Concrete fixtures for witnesses and counterexamples -/

/-- A filesystem with no entries. -/
def fsEmpty : FS :=
  { canonicalize := fun _ => none
    isFile := fun _ => false
    readFile := fun _ => none
    mimeOf := fun _ => "application/octet-stream" }

/-- Event stream of a chapter whose only image points outside the book
source directory. -/
def evts0 : List MdEvent := [.startImage "../out.png"]

/-- A filesystem where the source root canonicalizes to SRC and the image
target of evts0 canonicalizes to an existing regular file outside SRC. -/
def fs0 : FS :=
  { canonicalize := fun p =>
      if p == ["root", "src"] then some ["SRC"]
      else if p == ["SRC", "..", "out.png"] then some ["OUT", "out.png"]
      else none
    isFile := fun p => p == ["OUT", "out.png"]
    readFile := fun _ => none
    mimeOf := fun _ => "application/octet-stream" }

/-- A one-chapter render context over the out-of-tree image. -/
def ctx0 : RenderContext :=
  { root := ["root"]
    config := { title := none, description := none, authors := [], src := ["src"] }
    book := [.chapter "ch" "ch.md" "" evts0 none []] }

/-- Event stream of a chapter with one in-tree image. -/
def evts1 : List MdEvent := [.startImage "logo.png"]

/-- A filesystem where the source root canonicalizes to SRC and the image
of evts1 is a regular file inside it. -/
def fs1 : FS :=
  { canonicalize := fun p =>
      if p == ["root", "src"] then some ["SRC"]
      else if p == ["SRC", "logo.png"] then some ["SRC", "logo.png"]
      else none
    isFile := fun p => p == ["SRC", "logo.png"]
    readFile := fun _ => none
    mimeOf := fun _ => "image/png" }

/-- A one-chapter render context over the in-tree image. -/
def ctx1 : RenderContext :=
  { root := ["root"]
    config := { title := none, description := none, authors := [], src := ["src"] }
    book := [.chapter "Intro" "ch.md" "" evts1 none []] }

/-- A builder oracle rejecting the generator metadata call. -/
def oracleReject : BOracle := fun op =>
  if op == BOp.metadata "generator" "mdbook-epub" then some "rejected" else none

/-- Benign generator dependencies. -/
def dOk : GenDeps :=
  { fs := fsEmpty
    oracle := fun _ => none
    renderMarkdown := fun s => s
    hbsRender := fun s => .ok s
    defaultCss := [] }

/-- Dependencies whose builder rejects the first metadata call. -/
def dReject : GenDeps := { dOk with oracle := oracleReject }

/-- The empty renderer configuration. -/
def cfg0 : Config := { use_default_css := false, additional_css := [] }

/-- A filesystem holding one additional stylesheet file. -/
def fsCss : FS :=
  { fsEmpty with readFile := fun p => if p == ["extra.css"] then some [1, 2] else none }

/-- A configuration enabling the default stylesheet and naming one
additional stylesheet file. -/
def cfgCss : Config := { use_default_css := true, additional_css := [["extra.css"]] }

end MdBookEpub

namespace MdBookEpub

/-! ## Theorems: the HTML fixer -/

theorem noImgMatch_head {c : Char} {rest : List Char}
    (h : noImgMatch (c :: rest) = true) :
    matchImgLen (c :: rest) = none ∧ noImgMatch rest = true := by
  simpa only [noImgMatch, Bool.and_eq_true, Option.isNone_iff_eq_none] using h

theorem fixImgGo_of_noImgMatch :
    ∀ (fuel : Nat) (s : List Char), noImgMatch s = true → fixImgGo fuel s = s
  | 0, _, _ => rfl
  | _ + 1, [], _ => rfl
  | fuel + 1, c :: rest, h => by
      obtain ⟨h1, h2⟩ := noImgMatch_head h
      simp only [fixImgGo, h1]
      exact congrArg (c :: ·) (fixImgGo_of_noImgMatch fuel rest h2)

/-- C1 counterexample: the HTML fixer is not idempotent.  On the input
consisting of one self-closing image element, one application wraps the
image in a paragraph, but the wrapped output still contains the
self-closing image verbatim, so a second application wraps it again and
the two results differ (nested double-wrap). -/
theorem fix_img_double_wrap :
    fix_img imgEx = "<p><img src=\"a\"/></p>".toList ∧
    fix_img (fix_img imgEx) = "<p><p><img src=\"a\"/></p></p>".toList ∧
    fix_img (fix_img imgEx) ≠ fix_img imgEx := by
  refine ⟨by decide, by decide, by decide⟩

/-- C1 (amended): the HTML fixer is idempotent exactly on inputs on which
the image pattern finds no match: there it is the identity, so applying it
twice yields the same output as applying it once.  (On an input containing
a self-closing image element it is not idempotent: the second application
wraps the already wrapped image again.) -/
theorem fix_img_idempotent_of_noImgMatch (s : List Char)
    (h : noImgMatch s = true) :
    fix_img s = s ∧ fix_img (fix_img s) = fix_img s := by
  have hs : fix_img s = s := fixImgGo_of_noImgMatch s.length s h
  exact ⟨hs, by rw [hs, hs]⟩

/-- Witness for the amended C1 theorem at a concrete match-free input. -/
theorem fix_img_idempotent_witness :
    fix_img "no image <img> here".toList = "no image <img> here".toList ∧
    fix_img (fix_img "no image <img> here".toList) =
      fix_img "no image <img> here".toList :=
  fix_img_idempotent_of_noImgMatch "no image <img> here".toList (by decide)

/-! ## Theorems: link extraction -/

theorem extractLinks_eq_filterMap :
    ∀ evts : List MdEvent, extractLinks evts = evts.filterMap linkOfEvent
  | [] => rfl
  | .startImage d :: rest => by
      simp [extractLinks, linkOfEvent, List.filterMap_cons, extractLinks_eq_filterMap rest]
  | .html content :: rest => by
      cases hm : firstHtmlLink content.data with
      | none =>
          simp [extractLinks, linkOfEvent, String.toList, hm, List.filterMap_cons,
            extractLinks_eq_filterMap rest]
      | some v =>
          simp [extractLinks, linkOfEvent, String.toList, hm, List.filterMap_cons,
            extractLinks_eq_filterMap rest]
  | .startLink d :: rest => by
      simp [extractLinks, linkOfEvent, List.filterMap_cons, extractLinks_eq_filterMap rest]
  | .text s :: rest => by
      simp [extractLinks, linkOfEvent, List.filterMap_cons, extractLinks_eq_filterMap rest]
  | .other :: rest => by
      simp [extractLinks, linkOfEvent, List.filterMap_cons, extractLinks_eq_filterMap rest]

theorem extractLinks_append (l r : List MdEvent) :
    extractLinks (l ++ r) = extractLinks l ++ extractLinks r := by
  rw [extractLinks_eq_filterMap, extractLinks_eq_filterMap l,
    extractLinks_eq_filterMap r, List.filterMap_append]

/-- C4: the extractor returns link strings in document order with
duplicates preserved: extraction is a homomorphism for concatenation of
event streams and agrees with the per-event link map; every image event
contributes its destination verbatim; a raw html fragment contributes at
most one link; and of several attribute matches in one fragment only the
first is captured. -/
theorem extract_links_document_order :
    (∀ l r : List MdEvent, extractLinks (l ++ r) = extractLinks l ++ extractLinks r) ∧
    (∀ evts : List MdEvent, extractLinks evts = evts.filterMap linkOfEvent) ∧
    (∀ d : String, extractLinks [MdEvent.startImage d] = [d]) ∧
    (∀ h : String, (extractLinks [MdEvent.html h]).length ≤ 1) ∧
    extractLinks [MdEvent.html "<img src=\"a.png\"><img src=\"b.png\">"] = ["a.png"] := by
  refine ⟨extractLinks_append, extractLinks_eq_filterMap, fun d => rfl, fun h => ?_, by decide⟩
  cases hm : firstHtmlLink h.data with
  | none => simp [extractLinks, String.toList, hm]
  | some v => simp [extractLinks, String.toList, hm]

theorem hasSub_false_head {c : Char} {rest pat : List Char}
    (h : hasSub (c :: rest) pat = false) :
    startsList pat (c :: rest) = false ∧ hasSub rest pat = false := by
  simpa only [hasSub, Bool.or_eq_false_iff] using h

theorem hasSub_drop {pat : List Char} :
    ∀ (k : Nat) (s : List Char), hasSub s pat = false → hasSub (s.drop k) pat = false
  | 0, _, h => h
  | _ + 1, [], h => h
  | k + 1, c :: rest, h => by
      simpa using hasSub_drop k rest (hasSub_false_head h).2

theorem matchAttr_none :
    ∀ s : List Char, hasSub s srcPat = false → hasSub s hrefPat = false →
      matchAttr s = none
  | [], _, _ => rfl
  | c :: rest, hs, hh => by
      obtain ⟨hs1, hs2⟩ := hasSub_false_head hs
      obtain ⟨hh1, hh2⟩ := hasSub_false_head hh
      have ih := matchAttr_none rest hs2 hh2
      simp [matchAttr, hs1, hh1, ih]

theorem firstHtmlLink_none :
    ∀ s : List Char, hasSub s srcPat = false → hasSub s hrefPat = false →
      firstHtmlLink s = none
  | [], _, _ => rfl
  | c :: rest, hs, hh => by
      have hs2 := (hasSub_false_head hs).2
      have hh2 := (hasSub_false_head hh).2
      have ha := matchAttr_none (rest.drop 2) (hasSub_drop 2 _ hs2) (hasSub_drop 2 _ hh2)
      have hi := matchAttr_none (rest.drop 4) (hasSub_drop 4 _ hs2) (hasSub_drop 4 _ hh2)
      have ih := firstHtmlLink_none rest hs2 hh2
      simp [firstHtmlLink, ha, hi, ih]

/-- C9: the raw html pattern matches only double-quoted attribute values:
a fragment containing no double-quoted src or href attribute anywhere (in
particular one whose attribute values are all single-quoted or unquoted)
yields no link and no error from the extractor. -/
theorem single_quoted_attr_ignored (frag : List Char) (fs : FS) (dir : List String)
    (hs : hasSub frag srcPat = false) (hh : hasSub frag hrefPat = false) :
    firstHtmlLink frag = none ∧
    extractLinks [MdEvent.html (String.mk frag)] = [] ∧
    assets_in_markdown fs [MdEvent.html (String.mk frag)] dir = .ok [] := by
  have h1 := firstHtmlLink_none frag hs hh
  refine ⟨h1, ?_, ?_⟩
  · simp [extractLinks, String.toList, h1]
  · simp [assets_in_markdown, extractLinks, String.toList, h1, resolveLinks]

/-- Witness for C9 at a concrete fragment whose attribute value is
unquoted. -/
theorem single_quoted_attr_ignored_witness :
    firstHtmlLink "<img src=diagram.svg>".toList = none ∧
    extractLinks [MdEvent.html (String.mk "<img src=diagram.svg>".toList)] = [] ∧
    assets_in_markdown fsEmpty
      [MdEvent.html (String.mk "<img src=diagram.svg>".toList)] [] = .ok [] :=
  single_quoted_attr_ignored "<img src=diagram.svg>".toList fsEmpty []
    (by decide) (by decide)

/-- C10: a markdown link that is not an image never produces an extracted
link or an asset: inserting a link start event anywhere into a chapter
leaves extraction and per-chapter asset resolution unchanged, introducing
no error. -/
theorem non_image_link_ignored (fs : FS) (dir : List String)
    (l r : List MdEvent) (dest : String) :
    extractLinks (l ++ MdEvent.startLink dest :: r) = extractLinks (l ++ r) ∧
    assets_in_markdown fs (l ++ MdEvent.startLink dest :: r) dir =
      assets_in_markdown fs (l ++ r) dir := by
  have h1 : extractLinks (l ++ MdEvent.startLink dest :: r) = extractLinks (l ++ r) := by
    rw [extractLinks_append, extractLinks_append]
    simp [extractLinks]
  exact ⟨h1, by simp [assets_in_markdown, h1]⟩

/-! ## Theorems: asset collection -/

theorem resolveLinks_error_of_mem (fs : FS) (dir : List String) :
    ∀ (links : List String) (link e : String), link ∈ links →
      resolveLink fs dir link = .error e →
      ∃ e2, resolveLinks fs dir links = .error e2
  | [], link, _, hmem, _ => absurd hmem (List.not_mem_nil link)
  | l :: rest, link, e, hmem, herr => by
      cases hr : resolveLink fs dir l with
      | error e1 => exact ⟨e1, by simp [resolveLinks, hr]⟩
      | ok c =>
          rcases List.mem_cons.mp hmem with heq | hmem2
          · subst heq; rw [hr] at herr; simp at herr
          · obtain ⟨e2, h2⟩ := resolveLinks_error_of_mem fs dir rest link e hmem2 herr
            exact ⟨e2, by simp [resolveLinks, hr, h2]⟩

theorem resolveLinks_ok (fs : FS) (dir : List String) :
    ∀ links : List String,
      (∀ link ∈ links, ∃ c, resolveLink fs dir link = .ok c) →
      ∃ cs, resolveLinks fs dir links = .ok cs ∧ cs.length = links.length ∧
        ∀ c ∈ cs, ∃ link ∈ links, resolveLink fs dir link = .ok c
  | [], _ => ⟨[], rfl, rfl, by simp⟩
  | l :: rest, h => by
      obtain ⟨c, hc⟩ := h l (List.mem_cons_self l rest)
      obtain ⟨cs, hcs, hlen, hmem⟩ := resolveLinks_ok fs dir rest
        (fun link hl => h link (List.mem_cons_of_mem l hl))
      refine ⟨c :: cs, by simp [resolveLinks, hc, hcs], by simp [hlen], ?_⟩
      intro x hx
      rcases List.mem_cons.mp hx with hxc | hxcs
      · exact ⟨l, List.mem_cons_self l rest, by rw [hxc]; exact hc⟩
      · obtain ⟨link, hl, hr⟩ := hmem x hxcs
        exact ⟨link, List.mem_cons_of_mem l hl, hr⟩

theorem stripRoot_some_append :
    ∀ (pre l rest : List String), stripRoot pre l = some rest → l = pre ++ rest
  | [], l, rest, h => by
      simp only [stripRoot, Option.some.injEq] at h
      simpa using h
  | _ :: _, [], _, h => by simp [stripRoot] at h
  | p :: ps, x :: xs, rest, h => by
      simp only [stripRoot] at h
      by_cases hpx : p = x
      · rw [if_pos hpx] at h
        subst hpx
        simp [List.cons_append, stripRoot_some_append ps xs rest h]
      · rw [if_neg hpx] at h
        simp at h

theorem stripRoot_append_self :
    ∀ pre rest : List String, stripRoot pre (pre ++ rest) = some rest
  | [], _ => rfl
  | p :: ps, rest => by simp [stripRoot, stripRoot_append_self ps rest]

theorem mapAssets_ok (fs : FS) (srcDir : List String) :
    ∀ fulls : List (List String),
      (∀ full ∈ fulls, (stripRoot srcDir full).isSome = true) →
      ∃ xs, mapAssets fs srcDir fulls = .ok xs ∧ xs.length = fulls.length
  | [], _ => ⟨[], rfl, rfl⟩
  | full :: rest, h => by
      obtain ⟨rel, hrel⟩ := Option.isSome_iff_exists.mp (h full (List.mem_cons_self full rest))
      obtain ⟨xs, hxs, hlen⟩ := mapAssets_ok fs srcDir rest
        (fun f hf => h f (List.mem_cons_of_mem full hf))
      exact ⟨Asset.new fs rel full :: xs, by simp [mapAssets, mkAsset, hrel, hxs],
        by simp [hlen]⟩

theorem mapAssets_invariant (fs : FS) (srcDir : List String) :
    ∀ (fulls : List (List String)) (xs : List Asset),
      mapAssets fs srcDir fulls = .ok xs →
      ∀ a ∈ xs, a.location_on_disk = srcDir ++ a.filename ∧
        stripRoot srcDir a.location_on_disk = some a.filename
  | [], xs, h, a, ha => by
      simp only [mapAssets, Except.ok.injEq] at h
      subst h; simp at ha
  | full :: rest, xs, h, a, ha => by
      cases hmk : mkAsset fs srcDir full with
      | error e => simp [mapAssets, hmk] at h
      | ok a0 =>
          cases hrest : mapAssets fs srcDir rest with
          | error e => simp [mapAssets, hmk, hrest] at h
          | ok more =>
              simp only [mapAssets, hmk, hrest, Except.ok.injEq] at h
              subst h
              rcases List.mem_cons.mp ha with haa | ham
              · subst haa
                cases hsr : stripRoot srcDir full with
                | none => simp [mkAsset, hsr] at hmk
                | some rel =>
                    simp only [mkAsset, hsr, Except.ok.injEq] at hmk
                    subst hmk
                    have hfull := stripRoot_some_append srcDir full rel hsr
                    exact ⟨by simpa [Asset.new] using hfull, by simpa [Asset.new] using hsr⟩
              · exact mapAssets_invariant fs srcDir rest more hrest a ham

theorem chapterAssets_error_of (fs : FS) (srcDir : List String) (path : String)
    (events : List MdEvent) (link e : String)
    (hl : link ∈ extractLinks events)
    (he : resolveLink fs (chapterDir srcDir path) link = .error e) :
    ∃ e2, chapterAssets fs srcDir path events = .error e2 := by
  obtain ⟨e2, h2⟩ := resolveLinks_error_of_mem fs (chapterDir srcDir path)
    (extractLinks events) link e hl he
  exact ⟨e2, by simp [chapterAssets, assets_in_markdown, h2]⟩

theorem chapterAssets_ok_of (fs : FS) (srcDir : List String) (path : String)
    (events : List MdEvent)
    (h : ∀ link ∈ extractLinks events, ∃ c,
        resolveLink fs (chapterDir srcDir path) link = .ok c ∧
        (stripRoot srcDir c).isSome = true) :
    ∃ xs, chapterAssets fs srcDir path events = .ok xs ∧
      xs.length = (extractLinks events).length := by
  obtain ⟨cs, hcs, hlen, hmem⟩ := resolveLinks_ok fs (chapterDir srcDir path)
    (extractLinks events) (fun link hl => ⟨(h link hl).choose, (h link hl).choose_spec.1⟩)
  have hstrip : ∀ full ∈ cs, (stripRoot srcDir full).isSome = true := by
    intro full hf
    obtain ⟨link, hl, hr⟩ := hmem full hf
    obtain ⟨c, hc, hsome⟩ := h link hl
    rw [hc] at hr
    have hcf : c = full := by injection hr
    subst hcf
    exact hsome
  obtain ⟨xs, hxs, hxlen⟩ := mapAssets_ok fs srcDir cs hstrip
  exact ⟨xs, by simp [chapterAssets, assets_in_markdown, hcs, hxs], by rw [hxlen, hlen]⟩

theorem findGo_error_of (fs : FS) (srcDir : List String) :
    ∀ (items : List BookItem) (path : String) (events : List MdEvent)
      (link e : String),
      (path, events) ∈ chapterSeq items →
      link ∈ extractLinks events →
      resolveLink fs (chapterDir srcDir path) link = .error e →
      ∃ e2, findGo fs srcDir items = .error e2
  | [], _, _, _, _, hch, _, _ => absurd hch (List.not_mem_nil _)
  | .separator :: rest, path, events, link, e, hch, hl, he => by
      simp only [chapterSeq] at hch
      obtain ⟨e2, h2⟩ := findGo_error_of fs srcDir rest path events link e hch hl he
      exact ⟨e2, by simp [findGo, h2]⟩
  | .chapter _ p _ evts _ _ :: rest, path, events, link, e, hch, hl, he => by
      simp only [chapterSeq] at hch
      rcases List.mem_cons.mp hch with heq | hmem
      · rw [Prod.mk.injEq] at heq
        obtain ⟨hp, hev⟩ := heq
        subst hp; subst hev
        obtain ⟨e2, h2⟩ := chapterAssets_error_of fs srcDir path events link e hl he
        exact ⟨e2, by simp [findGo, h2]⟩
      · obtain ⟨e2, h2⟩ := findGo_error_of fs srcDir rest path events link e hmem hl he
        cases hca : chapterAssets fs srcDir p evts with
        | error e3 => exact ⟨e3, by simp [findGo, hca]⟩
        | ok here => exact ⟨e2, by simp [findGo, hca, h2]⟩

theorem findGo_ok_of (fs : FS) (srcDir : List String) :
    ∀ items : List BookItem,
      (∀ path events link, (path, events) ∈ chapterSeq items →
        link ∈ extractLinks events →
        ∃ c, resolveLink fs (chapterDir srcDir path) link = .ok c ∧
          (stripRoot srcDir c).isSome = true) →
      ∃ l, findGo fs srcDir items = .ok l ∧ l.length = totalLinks items
  | [], _ => ⟨[], rfl, rfl⟩
  | .separator :: rest, h => by
      obtain ⟨l, hl, hlen⟩ := findGo_ok_of fs srcDir rest (fun path events link hch =>
        h path events link (by simpa only [chapterSeq] using hch))
      exact ⟨l, by simp [findGo, hl], by simp [totalLinks, hlen]⟩
  | .chapter _ p _ evts _ _ :: rest, h => by
      obtain ⟨here, hhere, hherelen⟩ := chapterAssets_ok_of fs srcDir p evts
        (fun link hl => h p evts link (by simp only [chapterSeq]; exact List.mem_cons_self _ _) hl)
      obtain ⟨more, hmore, hmorelen⟩ := findGo_ok_of fs srcDir rest
        (fun path events link hch hl => h path events link
          (by simp only [chapterSeq]; exact List.mem_cons_of_mem _ hch) hl)
      exact ⟨here ++ more, by simp [findGo, hhere, hmore],
        by simp [totalLinks, hherelen, hmorelen]⟩

theorem findGo_invariant (fs : FS) (srcDir : List String) :
    ∀ (items : List BookItem) (assets : List Asset),
      findGo fs srcDir items = .ok assets →
      ∀ a ∈ assets, a.location_on_disk = srcDir ++ a.filename ∧
        stripRoot srcDir a.location_on_disk = some a.filename
  | [], assets, h, a, ha => by
      simp only [findGo, Except.ok.injEq] at h
      subst h; simp at ha
  | .separator :: rest, assets, h, a, ha =>
      findGo_invariant fs srcDir rest assets (by simpa only [findGo] using h) a ha
  | .chapter _ p _ evts _ _ :: rest, assets, h, a, ha => by
      cases hca : chapterAssets fs srcDir p evts with
      | error e => simp [findGo, hca] at h
      | ok here =>
          cases hrest : findGo fs srcDir rest with
          | error e => simp [findGo, hca, hrest] at h
          | ok more =>
              simp only [findGo, hca, hrest, Except.ok.injEq] at h
              subst h
              rcases List.mem_append.mp ha with hh | hm
              · have hsplit : ∃ found,
                    assets_in_markdown fs evts (chapterDir srcDir p) = .ok found ∧
                    mapAssets fs srcDir found = .ok here := by
                  cases haim : assets_in_markdown fs evts (chapterDir srcDir p) with
                  | error e => simp [chapterAssets, haim] at hca
                  | ok found => exact ⟨found, rfl, by simpa [chapterAssets, haim] using hca⟩
                obtain ⟨found, _, hmap⟩ := hsplit
                exact mapAssets_invariant fs srcDir found here hmap a hh
              · exact findGo_invariant fs srcDir rest more hrest a hm

/-- C2 (amended): asset collection is fail-fast.  If any link extracted
from any chapter fails to resolve (the joined path does not canonicalize,
or canonicalizes to something that is not a regular file), the whole
collection returns an error and no asset list is produced.  Otherwise,
provided every resolved path lies under the canonical source root, the
full list is returned, one asset per extracted link.  (A link resolving
to an existing regular file outside the source root is the remaining
case: the source panics unwrapping strip_prefix, so no full list is
returned there either, as the counterexample shows.) -/
theorem find_fail_fast (fs : FS) (ctx : RenderContext) (srcDir : List String)
    (hsrc : fs.canonicalize (ctx.root ++ ctx.config.src) = some srcDir) :
    (∀ path events link e, (path, events) ∈ chapterSeq ctx.book →
       link ∈ extractLinks events →
       resolveLink fs (chapterDir srcDir path) link = .error e →
       ∃ e2, find fs ctx = .error e2) ∧
    ((∀ path events link, (path, events) ∈ chapterSeq ctx.book →
       link ∈ extractLinks events →
       ∃ c, resolveLink fs (chapterDir srcDir path) link = .ok c ∧
         (stripRoot srcDir c).isSome = true) →
     ∃ l, find fs ctx = .ok l ∧ l.length = totalLinks ctx.book) := by
  constructor
  · intro path events link e hch hl he
    obtain ⟨e2, h2⟩ := findGo_error_of fs srcDir ctx.book path events link e hch hl he
    exact ⟨e2, by simp [find, hsrc, h2]⟩
  · intro h
    obtain ⟨l, hl, hlen⟩ := findGo_ok_of fs srcDir ctx.book h
    exact ⟨l, by simp [find, hsrc, hl], hlen⟩

/-- C2 counterexample: in the one-chapter book ctx0 the single extracted
link resolves fine (it canonicalizes to an existing regular file), yet
find does not return the full one-asset list: the resolved path lies
outside the canonical source root, and the source unwraps the failed
strip_prefix (a panic, modelled as an error). -/
theorem find_fail_fast_counterexample :
    chapterSeq ctx0.book = [("ch.md", evts0)] ∧
    extractLinks evts0 = ["../out.png"] ∧
    resolveLink fs0 (chapterDir ["SRC"] "ch.md") "../out.png" = .ok ["OUT", "out.png"] ∧
    fs0.isFile ["OUT", "out.png"] = true ∧
    find fs0 ctx0 = .error "called unwrap on a failed strip of the source root" := by
  refine ⟨rfl, rfl, by decide, by decide, by decide⟩

/-- Witness for C2 at the concrete one-chapter book ctx1 whose single
image resolves to a regular file inside the source root. -/
theorem find_fail_fast_witness :
    ∃ l, find fs1 ctx1 = .ok l ∧ l.length = totalLinks ctx1.book :=
  (find_fail_fast fs1 ctx1 ["SRC"] (by decide)).2 (by
    intro path events link hch hl
    simp only [ctx1, chapterSeq] at hch
    rw [List.mem_singleton, Prod.mk.injEq] at hch
    obtain ⟨hp, hev⟩ := hch
    subst hp; subst hev
    simp only [evts1, extractLinks, List.mem_singleton] at hl
    subst hl
    exact ⟨["SRC", "logo.png"], by decide, by decide⟩)

/-- C3: every asset of a successful collection satisfies the invariant:
its location on disk is the canonical source root joined with its archive
filename; equivalently the filename is exactly the strip of the source
root prefix off the resolved location. -/
theorem asset_location_invariant (fs : FS) (ctx : RenderContext)
    (srcDir : List String) (assets : List Asset)
    (hsrc : fs.canonicalize (ctx.root ++ ctx.config.src) = some srcDir)
    (hok : find fs ctx = .ok assets) :
    ∀ a ∈ assets, a.location_on_disk = srcDir ++ a.filename ∧
      stripRoot srcDir a.location_on_disk = some a.filename := by
  have hgo : findGo fs srcDir ctx.book = .ok assets := by
    simpa [find, hsrc] using hok
  exact findGo_invariant fs srcDir ctx.book assets hgo

/-- Witness for C3 at the concrete book ctx1. -/
theorem asset_location_invariant_witness :
    (Asset.new fs1 ["logo.png"] ["SRC", "logo.png"]).location_on_disk =
      ["SRC"] ++ (Asset.new fs1 ["logo.png"] ["SRC", "logo.png"]).filename ∧
    stripRoot ["SRC"] (Asset.new fs1 ["logo.png"] ["SRC", "logo.png"]).location_on_disk =
      some (Asset.new fs1 ["logo.png"] ["SRC", "logo.png"]).filename :=
  asset_location_invariant fs1 ctx1 ["SRC"]
    [Asset.new fs1 ["logo.png"] ["SRC", "logo.png"]]
    (by decide) (by decide) _ (List.mem_singleton.mpr rfl)

/-- C8: a remote url image destination is neither skipped nor downloaded:
the url string is joined segment-wise onto the chapter directory like any
on-disk relative path, and when canonicalization of that non-existent
path fails the chapter asset scan returns an error. -/
theorem remote_url_treated_as_path (fs : FS) (dir : List String)
    (evts : List MdEvent) (url : String)
    (hmem : MdEvent.startImage url ∈ evts)
    (hcanon : fs.canonicalize (dir ++ splitSlash url) = none) :
    resolveLink fs dir url = .error ("Unable to fetch the canonical path for " ++
      String.intercalate "/" (dir ++ splitSlash url)) ∧
    ∃ e, assets_in_markdown fs evts dir = .error e := by
  have hres : resolveLink fs dir url = .error ("Unable to fetch the canonical path for " ++
      String.intercalate "/" (dir ++ splitSlash url)) := by
    simp [resolveLink, hcanon]
  have hurl : url ∈ extractLinks evts := by
    rw [extractLinks_eq_filterMap]
    exact List.mem_filterMap.mpr ⟨MdEvent.startImage url, hmem, rfl⟩
  obtain ⟨e2, h2⟩ := resolveLinks_error_of_mem fs dir (extractLinks evts) url _ hurl hres
  exact ⟨hres, e2, h2⟩

/-- Witness for C8: a chapter whose image destination is a remote https
url, over a filesystem on which no such path exists. -/
theorem remote_url_treated_as_path_witness :
    resolveLink fsEmpty [] "https://example.com/img.png" =
      .error ("Unable to fetch the canonical path for " ++
        String.intercalate "/" ([] ++ splitSlash "https://example.com/img.png")) ∧
    ∃ e, assets_in_markdown fsEmpty
      [MdEvent.startImage "https://example.com/img.png"] [] = .error e :=
  remote_url_treated_as_path fsEmpty [] [MdEvent.startImage "https://example.com/img.png"]
    "https://example.com/img.png" (List.mem_singleton.mpr rfl) rfl

/-! ## Theorems: the stylesheet builder -/

theorem stylesheetGo_ok (fs : FS) (contents : List String → List Nat) :
    ∀ (files : List (List String)) (acc : List Nat),
      (∀ p ∈ files, fs.readFile p = some (contents p)) →
      stylesheetGo fs acc files = .ok (acc ++ (files.map contents).flatten)
  | [], acc, _ => by simp [stylesheetGo]
  | p :: rest, acc, h => by
      have hp := h p (List.mem_cons_self p rest)
      have ih := stylesheetGo_ok fs contents rest (acc ++ contents p)
        (fun q hq => h q (List.mem_cons_of_mem p hq))
      simp [stylesheetGo, hp, ih, List.append_assoc]

/-- C7: the generated stylesheet is the concatenation, in order, of the
built-in default stylesheet bytes (present exactly when the flag is set)
followed by the full contents of each additional stylesheet file in
configured order; with the flag off and no additional files the result is
the empty byte sequence. -/
theorem stylesheet_concatenation (fs : FS) (defaultCss : List Nat) (config : Config)
    (contents : List String → List Nat)
    (h : ∀ p ∈ config.additional_css, fs.readFile p = some (contents p)) :
    generate_stylesheet fs defaultCss config =
      .ok ((if config.use_default_css then defaultCss else []) ++
        (config.additional_css.map contents).flatten) ∧
    (∀ (fs2 : FS) (d2 : List Nat), generate_stylesheet fs2 d2 cfg0 = .ok []) :=
  ⟨stylesheetGo_ok fs contents config.additional_css _ h, fun _ _ => rfl⟩

/-- Witness for C7: default bytes 9, one additional file with bytes 1, 2,
concatenating to 9, 1, 2. -/
theorem stylesheet_concatenation_witness :
    generate_stylesheet fsCss [9] cfgCss = .ok [9, 1, 2] :=
  (stylesheet_concatenation fsCss [9] cfgCss (fun _ => [1, 2]) (by
    intro p hp
    simp only [cfgCss, List.mem_singleton] at hp
    subst hp
    rfl)).1

/-! ## Theorems: the content assembler and the package emitter -/

/-- C6: the nesting level of a content unit equals the component count of
the chapter section number minus one (3.2.1 gives 2), zero for an
unnumbered chapter; and whenever the page template renders, add_chapter
hands the builder exactly one content entry carrying that level. -/
theorem content_nesting_level :
    (∀ ns : List Nat, chapterLevel (some ns) = (ns.length : Int) - 1) ∧
    chapterLevel none = 0 ∧
    chapterLevel (some [3, 2, 1]) = 2 ∧
    (∀ (d : GenDeps) (tr : List BOp) (name path content : String)
       (number : Option (List Nat)) (subs : List BookItem) (rendered : String),
       d.hbsRender (String.mk (fix_html (d.renderMarkdown content).toList)) = .ok rendered →
       add_chapter d tr name path content number subs =
         doOp d.oracle tr (.addContent (withExtHtml path) name (chapterLevel number)
           (tocChildren subs))) := by
  refine ⟨fun ns => rfl, rfl, by decide, ?_⟩
  intro d tr name path content number subs rendered hr
  simp only [String.toList] at hr
  simp [add_chapter, hr]

/-- Witness for C6 at a concrete chapter numbered 3.2.1. -/
theorem content_nesting_level_witness :
    add_chapter dOk [] "Intro" "intro.md" "hi" (some [3, 2, 1]) [] =
      doOp dOk.oracle [] (.addContent (withExtHtml "intro.md") "Intro"
        (chapterLevel (some [3, 2, 1])) (tocChildren [])) :=
  content_nesting_level.2.2.2 dOk [] "Intro" "intro.md" "hi" (some [3, 2, 1]) []
    (String.mk (fix_html (dOk.renderMarkdown "hi").toList)) rfl

theorem id_trace (tr : List BOp) : ∃ new : List BOp, tr = tr ++ new ∧ BOp.serialize ∉ new :=
  ⟨[], by simp, by simp⟩

theorem doOp_trace (oracle : BOracle) (tr : List BOp) (op : BOp)
    (hop : op ≠ BOp.serialize) :
    ∃ new, (doOp oracle tr op).1 = tr ++ new ∧ BOp.serialize ∉ new :=
  ⟨[op], rfl, by simpa using fun h => hop h.symm⟩

theorem andThen_trace (r : List BOp × Option String)
    (f : List BOp → List BOp × Option String) (tr : List BOp)
    (hr : ∃ new, r.1 = tr ++ new ∧ BOp.serialize ∉ new)
    (hf : ∀ tr2, ∃ new, (f tr2).1 = tr2 ++ new ∧ BOp.serialize ∉ new) :
    ∃ new, (andThen r f).1 = tr ++ new ∧ BOp.serialize ∉ new := by
  obtain ⟨tr1, err⟩ := r
  obtain ⟨n1, h1, hn1⟩ := hr
  simp only at h1
  cases err with
  | some e => exact ⟨n1, by simpa [andThen] using h1, hn1⟩
  | none =>
      obtain ⟨n2, h2, hn2⟩ := hf tr1
      refine ⟨n1 ++ n2, ?_, ?_⟩
      · simp only [andThen]
        rw [h2, h1, List.append_assoc]
      · intro hmem
        rcases List.mem_append.mp hmem with hm | hm
        · exact hn1 hm
        · exact hn2 hm

theorem opt_metadata_trace (oracle : BOracle) (key : String) (v : Option String)
    (tr : List BOp) :
    ∃ new, (match v with
      | some t => doOp oracle tr (BOp.metadata key t)
      | none => (tr, none)).1 = tr ++ new ∧ BOp.serialize ∉ new := by
  cases v with
  | some t => exact doOp_trace oracle tr _ (by simp)
  | none => exact id_trace tr

theorem populate_metadata_trace (oracle : BOracle) (cfg : BookConfig) (tr : List BOp) :
    ∃ new, (populate_metadata oracle cfg tr).1 = tr ++ new ∧ BOp.serialize ∉ new := by
  unfold populate_metadata
  refine andThen_trace _ _ _ (doOp_trace oracle tr _ (by simp)) (fun tr1 => ?_)
  refine andThen_trace _ _ _ (opt_metadata_trace oracle "title" cfg.title tr1) (fun tr2 => ?_)
  refine andThen_trace _ _ _
    (opt_metadata_trace oracle "description" cfg.description tr2) (fun tr3 => ?_)
  cases cfg.authors with
  | nil => exact id_trace tr3
  | cons a rest => exact doOp_trace oracle tr3 _ (by simp)

theorem add_chapter_trace (d : GenDeps) (tr : List BOp) (name path content : String)
    (number : Option (List Nat)) (subs : List BookItem) :
    ∃ new, (add_chapter d tr name path content number subs).1 = tr ++ new ∧
      BOp.serialize ∉ new := by
  cases hr : d.hbsRender (String.mk (fix_html (d.renderMarkdown content).data)) with
  | error e => simp [add_chapter, hr]
  | ok rendered =>
      have hd := doOp_trace d.oracle tr
        (BOp.addContent (withExtHtml path) name (chapterLevel number) (tocChildren subs))
        (by simp)
      simpa [add_chapter, hr] using hd

theorem generate_chapters_trace (d : GenDeps) :
    ∀ (items : List BookItem) (tr : List BOp),
      ∃ new, (generate_chapters d items tr).1 = tr ++ new ∧ BOp.serialize ∉ new
  | [], tr => id_trace tr
  | .separator :: rest, tr => by
      simpa [generate_chapters] using generate_chapters_trace d rest tr
  | .chapter name path content evts number subs :: rest, tr => by
      simp only [generate_chapters]
      exact andThen_trace _ _ _ (add_chapter_trace d tr name path content number subs)
        (fun tr1 => generate_chapters_trace d rest tr1)

theorem embed_stylesheets_trace (d : GenDeps) (config : Config) (tr : List BOp) :
    ∃ new, (embed_stylesheets d config tr).1 = tr ++ new ∧ BOp.serialize ∉ new := by
  cases hs : generate_stylesheet d.fs d.defaultCss config with
  | error e => simp [embed_stylesheets, hs]
  | ok bytes => simpa [embed_stylesheets, hs] using doOp_trace d.oracle tr _ (by simp)

theorem load_asset_trace (d : GenDeps) (tr : List BOp) (a : Asset) :
    ∃ new, (load_asset d tr a).1 = tr ++ new ∧ BOp.serialize ∉ new := by
  cases hf : d.fs.readFile a.location_on_disk with
  | none => simp [load_asset, hf]
  | some bytes => simpa [load_asset, hf] using doOp_trace d.oracle tr _ (by simp)

theorem embed_assets_trace (d : GenDeps) :
    ∀ (assets : List Asset) (tr : List BOp),
      ∃ new, (embed_assets d assets tr).1 = tr ++ new ∧ BOp.serialize ∉ new
  | [], tr => id_trace tr
  | a :: rest, tr => by
      simp only [embed_assets]
      exact andThen_trace _ _ _ (load_asset_trace d tr a)
        (fun tr1 => embed_assets_trace d rest tr1)

theorem additional_assets_trace (d : GenDeps) (ctx : RenderContext) (tr : List BOp) :
    ∃ new, (additional_assets d ctx tr).1 = tr ++ new ∧ BOp.serialize ∉ new := by
  cases hf : find d.fs ctx with
  | error e => simp [additional_assets, hf]
  | ok assets => simpa [additional_assets, hf] using embed_assets_trace d assets tr

theorem assemble_trace (d : GenDeps) (ctx : RenderContext) (config : Config)
    (tr : List BOp) :
    ∃ new, (assemble d ctx config tr).1 = tr ++ new ∧ BOp.serialize ∉ new := by
  unfold assemble
  refine andThen_trace _ _ _ (populate_metadata_trace d.oracle ctx.config tr) (fun tr1 => ?_)
  refine andThen_trace _ _ _ (generate_chapters_trace d ctx.book tr1) (fun tr2 => ?_)
  exact andThen_trace _ _ _ (embed_stylesheets_trace d config tr2)
    (fun tr3 => additional_assets_trace d ctx tr3)

theorem assemble_no_serialize (d : GenDeps) (ctx : RenderContext) (config : Config) :
    BOp.serialize ∉ (assemble d ctx config []).1 := by
  obtain ⟨new, h1, h2⟩ := assemble_trace d ctx config []
  rw [h1]
  simpa using h2

/-- C5: the package emitter never writes a partial package: the final
serialize call of the builder against the output sink happens only after
metadata population, chapter generation, stylesheet embedding and asset
embedding have all succeeded (it is then the last recorded builder call);
when assembly fails, generate returns that error and the trace of builder
calls contains no serialize call at all. -/
theorem generate_serializes_last (d : GenDeps) (ctx : RenderContext) (config : Config) :
    ((assemble d ctx config []).2 = none →
       generate d ctx config =
         ((assemble d ctx config []).1 ++ [BOp.serialize], d.oracle BOp.serialize)) ∧
    (∀ e, (assemble d ctx config []).2 = some e →
       generate d ctx config = ((assemble d ctx config []).1, some e) ∧
       BOp.serialize ∉ (generate d ctx config).1) := by
  have hno := assemble_no_serialize d ctx config
  constructor
  · intro h
    rcases hA : assemble d ctx config [] with ⟨tr, err⟩
    rw [hA] at h
    simp only at h
    subst h
    simp [generate, hA, andThen, doOp]
  · intro e h
    rcases hA : assemble d ctx config [] with ⟨tr, err⟩
    rw [hA] at h hno
    simp only at h hno
    subst h
    refine ⟨by simp [generate, hA, andThen], ?_⟩
    simpa [generate, hA, andThen] using hno

/-- Witness for C5: with a builder oracle rejecting the very first
metadata call, generate returns that error and its builder-call trace
contains no serialize call. -/
theorem generate_serializes_last_witness :
    generate dReject ctx0 cfg0 = ((assemble dReject ctx0 cfg0 []).1, some "rejected") ∧
    BOp.serialize ∉ (generate dReject ctx0 cfg0).1 :=
  (generate_serializes_last dReject ctx0 cfg0).2 "rejected" (by decide)

end MdBookEpub
